import Mathlib

/-!
Shallow embedding of the coverage-classification and point-parsing engine of
the thai-map application (src/App.tsx, src/services/geminiService.ts,
src/types.ts).  Latitudes, longitudes and distances are modelled as rationals.
The haversine function `getDistance` of App.tsx computes with transcendental
functions over floating-point numbers, so it is kept abstract: every operation
that calls it is parametrised by a distance function of type `DistFn`, and the
theorems below hold for every such function.
-/

/-- The four pin categories of types.ts (`PinCategory`). -/
inductive PinCategory where
  | Outzone
  | Request
  | Existing
  | Pending
deriving DecidableEq

/-- A hub ("radius zone") from types.ts (`CircleMarker`). -/
structure CircleMarker where
  id : String
  lat : ℚ
  lng : ℚ
  radius : ℚ
  outerRadius : ℚ
  label : String
deriving DecidableEq

/-- A stored point ("pin") from types.ts (`PointMarker`), without the derived
fields, which are recomputed by `processedBulkPins`.  The optional JS flag
`customLabel` is modelled as a `Bool` with `false` standing for `undefined`. -/
structure PointMarker where
  id : String
  lat : ℚ
  lng : ℚ
  color : String
  label : String
  province : Option String
  customLabel : Bool
  category : PinCategory
deriving DecidableEq

/-- The coverage classification of types.ts. -/
inductive CoverageStatus where
  | covered
  | near
  | none
deriving DecidableEq

/-- An enriched point as produced by `processedBulkPins` in App.tsx.
`distanceToNearest` is in kilometres; `Option.none` models `undefined`. -/
structure ProcessedPin where
  id : String
  lat : ℚ
  lng : ℚ
  color : String
  label : String
  province : Option String
  customLabel : Bool
  category : PinCategory
  coverageStatus : CoverageStatus
  distanceToNearest : Option ℚ
  nearestZone : Option String
  allZones : String
deriving DecidableEq

/-- Type of the abstract distance function standing for `getDistance`. -/
abbrev DistFn := ℚ → ℚ → ℚ → ℚ → ℚ

/-- Distance from a pin to a marker, in the argument order used by App.tsx:
`getDistance(pin.lat, pin.lng, m.lat, m.lng)`. -/
def mdist (dist : DistFn) (pin : PointMarker) (m : CircleMarker) : ℚ :=
  dist pin.lat pin.lng m.lat m.lng

/-- State of the `markers.forEach` loop inside `processedBulkPins`:
`nearestDist = Option.none` models the initial `Infinity`, `nearestZ` the
initially-undefined nearest label, `coveringZones` the accumulated array. -/
structure ScanState where
  nearestDist : Option ℚ
  nearestZ : Option String
  coveringZones : List String
deriving DecidableEq

/-- One iteration of the `markers.forEach` loop of `processedBulkPins`:
push the label when `d <= 50000`, and take over as nearest when
`d < nearestDist` (strictly, hence ties keep the earlier marker; any `d` is
strictly below the initial `Infinity`). -/
def scanStep (dist : DistFn) (pin : PointMarker) (st : ScanState)
    (m : CircleMarker) : ScanState :=
  let d := mdist dist pin m
  let covering := if d ≤ 50000 then st.coveringZones ++ [m.label] else st.coveringZones
  let better := match st.nearestDist with
    | Option.none => true
    | some nd => decide (d < nd)
  if better then
    { nearestDist := some d, nearestZ := some m.label, coveringZones := covering }
  else
    { st with coveringZones := covering }

/-- The whole `markers.forEach` loop of `processedBulkPins` for one pin. -/
def scanMarkers (dist : DistFn) (pin : PointMarker)
    (markers : List CircleMarker) : ScanState :=
  markers.foldl (scanStep dist pin) ⟨Option.none, Option.none, []⟩

/-- The status chain of `processedBulkPins`:
`if (nearestDist <= 50000) covered else if (nearestDist <= 100000) near else none`,
with `Option.none` standing for `Infinity` (for which both tests fail). -/
def statusOf : Option ℚ → CoverageStatus
  | some d =>
    if d ≤ 50000 then CoverageStatus.covered
    else if d ≤ 100000 then CoverageStatus.near
    else CoverageStatus.none
  | Option.none => CoverageStatus.none

/-- The label step of `processedBulkPins`: guarded by the JS test
`pin.province && !pin.customLabel` (the empty string is falsy), reading the
per-province counter map with default 0 (`provinceCounts.get(p) || 0`) and
writing back `c + 1`.  The counter map is modelled as a total function. -/
def allocLabel (counts : String → ℕ) (pin : PointMarker) :
    String × (String → ℕ) :=
  match pin.province with
  | some p =>
    if p ≠ "" ∧ pin.customLabel = false then
      let c := counts p
      (if c = 0 then p else p ++ " " ++ toString (c + 1),
       fun q => if q = p then c + 1 else counts q)
    else (pin.label, counts)
  | Option.none => (pin.label, counts)

/-- Body of the `bulkPins.map` callback in `processedBulkPins`: the enriched
pin (spread of the stored pin plus the recomputed fields) together with the
updated province counters. -/
def processPin (dist : DistFn) (markers : List CircleMarker)
    (counts : String → ℕ) (pin : PointMarker) :
    ProcessedPin × (String → ℕ) :=
  let st := scanMarkers dist pin markers
  let alloc := allocLabel counts pin
  ({ id := pin.id, lat := pin.lat, lng := pin.lng, color := pin.color,
     label := alloc.1, province := pin.province,
     customLabel := pin.customLabel, category := pin.category,
     coverageStatus := statusOf st.nearestDist,
     distanceToNearest := st.nearestDist.map (fun d => d / 1000),
     nearestZone := st.nearestZ,
     allZones := String.intercalate ("; ") st.coveringZones }, alloc.2)

/-- The `bulkPins.map` of `processedBulkPins`, threading the counter map. -/
def processPinsAux (dist : DistFn) (markers : List CircleMarker)
    (counts : String → ℕ) : List PointMarker → List ProcessedPin
  | [] => []
  | pin :: rest =>
    (processPin dist markers counts pin).1 ::
      processPinsAux dist markers (processPin dist markers counts pin).2 rest

/-- `processedBulkPins` from App.tsx: fresh counters (`new Map()`), then one
pass over the stored pin collection. -/
def processedBulkPins (dist : DistFn) (markers : List CircleMarker)
    (bulkPins : List PointMarker) : List ProcessedPin :=
  processPinsAux dist markers (fun _ => 0) bulkPins

/-- Whitespace as relevant inside one line for the JS trim and `\s`. -/
def isWsChar (c : Char) : Bool := c = ' ' || c = '\t' || c = '\r'

/-- `String.prototype.trim` on a list of characters. -/
def trimChars (cs : List Char) : List Char :=
  ((cs.dropWhile isWsChar).reverse.dropWhile isWsChar).reverse

/-- `String.prototype.trim`. -/
def jsTrim (s : String) : String := String.mk (trimChars s.data)

/-- Numeric value of a digit run. -/
def digitsVal (ds : List Char) : ℕ :=
  ds.foldl (fun n c => 10 * n + (c.toNat - 48)) 0

/-- Match `\d+\.\d+` at the head of the input: value, number of characters
consumed, and the rest.  Both digit runs are maximal, which coincides with
the backtracking regex semantics because a shorter run would leave a digit
where `\.` (resp. `,` or `\s`) is required. -/
def parseUnsignedAt (cs : List Char) : Option (ℚ × ℕ × List Char) :=
  let ds1 := cs.takeWhile Char.isDigit
  let cs2 := cs.dropWhile Char.isDigit
  match ds1, cs2 with
  | [], _ => Option.none
  | _ :: _, '.' :: cs3 =>
    let ds2 := cs3.takeWhile Char.isDigit
    let cs4 := cs3.dropWhile Char.isDigit
    match ds2 with
    | [] => Option.none
    | _ :: _ =>
      some ((digitsVal ds1 : ℚ) + (digitsVal ds2 : ℚ) / (10 : ℚ) ^ ds2.length,
            ds1.length + 1 + ds2.length, cs4)
  | _ :: _, _ => Option.none

/-- Match `-?\d+\.\d+` at the head of the input. -/
def parseDecimalAt (cs : List Char) : Option (ℚ × ℕ × List Char) :=
  match cs with
  | '-' :: rest =>
    match parseUnsignedAt rest with
    | some (v, n, r) => some (-v, n + 1, r)
    | Option.none => Option.none
  | _ => parseUnsignedAt cs

/-- Match the map-link pattern `@(-?\d+\.\d+),(-?\d+\.\d+)` at the head. -/
def tryUrlAt (cs : List Char) : Option (ℚ × ℚ) :=
  match cs with
  | '@' :: rest =>
    match parseDecimalAt rest with
    | some (lat, _, r1) =>
      match r1 with
      | ',' :: r2 =>
        match parseDecimalAt r2 with
        | some (lng, _, _) => some (lat, lng)
        | Option.none => Option.none
      | _ => Option.none
    | Option.none => Option.none
  | _ => Option.none

/-- Match the bare pattern `(-?\d+\.\d+)\s*,\s*(-?\d+\.\d+)` at the head. -/
def tryBareAt (cs : List Char) : Option (ℚ × ℚ) :=
  match parseDecimalAt cs with
  | some (lat, _, r1) =>
    match r1.dropWhile isWsChar with
    | ',' :: r3 =>
      match parseDecimalAt (r3.dropWhile isWsChar) with
      | some (lng, _, _) => some (lat, lng)
      | Option.none => Option.none
    | _ => Option.none
  | Option.none => Option.none

/-- Leftmost match of a pattern, as `String.prototype.match` without the `g`
flag: try every start position from the left, returning the match index. -/
def findFirst (p : List Char → Option (ℚ × ℚ)) :
    List Char → Option (ℕ × ℚ × ℚ)
  | [] =>
    match p [] with
    | some v => some (0, v)
    | Option.none => Option.none
  | c :: cs =>
    match p (c :: cs) with
    | some v => some (0, v)
    | Option.none =>
      match findFirst p cs with
      | some (i, v) => some (i + 1, v)
      | Option.none => Option.none

/-- `replace(/,\s*$/, '')` after a trim: remove one trailing comma. -/
def dropTrailingComma (cs : List Char) : List Char :=
  match cs.reverse with
  | ',' :: rest => rest.reverse
  | _ => cs

/-- The name capture in `handleImportBulk`:
`line.substring(0, latLngMatch.index).trim().replace(/,\s*$/, '').trim()`,
kept only when non-empty. -/
def beforeName (cs : List Char) (i : ℕ) : Option String :=
  let b := trimChars (dropTrailingComma (trimChars (cs.take i)))
  if b = [] then Option.none else some (String.mk b)

/-- A raw parsed candidate `{ lat, lng, name? }` of `handleImportBulk`. -/
structure RawPoint where
  lat : ℚ
  lng : ℚ
  name : Option String
deriving DecidableEq

/-- One iteration of the `lines.forEach` parsing loop of `handleImportBulk`:
skip blank lines, try the URL pattern first (no name capture), then the bare
pattern (name captured from the text before the match).  `parseFloat` on a
`-?\d+\.\d+` match never yields `NaN`, so the `isNaN` guard never drops a
candidate here. -/
def parseLine (line : String) : Option RawPoint :=
  let cs := line.data
  if trimChars cs = [] then Option.none
  else
    match findFirst tryUrlAt cs with
    | some (_, lat, lng) => some ⟨lat, lng, Option.none⟩
    | Option.none =>
      match findFirst tryBareAt cs with
      | some (i, lat, lng) => some ⟨lat, lng, beforeName cs i⟩
      | Option.none => Option.none

/-- The surviving candidates of a list of lines, in order. -/
def parseLines (ls : List String) : List RawPoint := ls.filterMap parseLine

/-- `importText.split('\n')` (split at every newline, keeping empty pieces),
written as a structural recursion over the character list. -/
def splitLinesAux : List Char → List Char → List String
  | [], acc => [String.mk acc.reverse]
  | c :: cs, acc =>
    if c = '\n' then String.mk acc.reverse :: splitLinesAux cs []
    else splitLinesAux cs (c :: acc)

/-- The line list of `handleImportBulk`. -/
def splitLines (s : String) : List String := splitLinesAux s.data []

/-- The parsing phase of `handleImportBulk`: split on newlines, parse each
line, drop the failures silently. -/
def parseText (text : String) : List RawPoint :=
  parseLines (splitLines text)

/-- `handleRenamePin` from App.tsx: an empty-after-trim name commits nothing;
otherwise every pin with the given id gets the new label verbatim and its
`customLabel` flag set. -/
def handleRenamePin (pins : List PointMarker) (id newName : String) :
    List PointMarker :=
  if jsTrim newName = "" then pins
  else pins.map (fun p =>
    if p.id = id then { p with label := newName, customLabel := true } else p)

/-- `handleRemovePin` from App.tsx. -/
def handleRemovePin (pins : List PointMarker) (id : String) :
    List PointMarker :=
  pins.filter (fun p => decide (p.id ≠ id))

/-- One summary row of `handleExportSummary` (the data of the CSV row). -/
structure SummaryRow where
  label : String
  lat : ℚ
  lng : ℚ
  existing : ℕ
  request : ℕ
  pending : ℕ
  outzone : ℕ
  totalCovered : ℕ
deriving DecidableEq

/-- The `markers.map` callback of `handleExportSummary`: recompute the
distance of every processed pin to this marker, keep those within 50000 m,
count them per category, and report the total as `coveredPins.length`. -/
def summaryRow (dist : DistFn) (processed : List ProcessedPin)
    (m : CircleMarker) : SummaryRow :=
  let coveredPins := processed.filter
    (fun p => decide (dist p.lat p.lng m.lat m.lng ≤ 50000))
  { label := m.label, lat := m.lat, lng := m.lng,
    existing := (coveredPins.filter
      (fun p => decide (p.category = PinCategory.Existing))).length,
    request := (coveredPins.filter
      (fun p => decide (p.category = PinCategory.Request))).length,
    pending := (coveredPins.filter
      (fun p => decide (p.category = PinCategory.Pending))).length,
    outzone := (coveredPins.filter
      (fun p => decide (p.category = PinCategory.Outzone))).length,
    totalCovered := coveredPins.length }

/-- `handleExportSummary` from App.tsx, one row per marker in order. -/
def handleExportSummary (dist : DistFn) (markers : List CircleMarker)
    (pins : List PointMarker) : List SummaryRow :=
  markers.map (summaryRow dist (processedBulkPins dist markers pins))

/-- Outcome of the provider call inside `batchIdentifyProvinces`: either the
call throws (transport error), or it resolves with a response text (the JS
falsy `undefined`/empty text is modelled by the empty string). -/
inductive ProviderOutcome where
  | throw
  | ok (text : String)

/-- `batchIdentifyProvinces` from src/services/geminiService.ts, parametrised
by the outcome of the remote call and by `JSON.parse` (a platform function;
`Except.error` models a thrown parse error).  An empty point list returns
early without consulting the provider; a thrown call or parse error is caught
and replaced by one "Unknown Province" sentinel per input point; a truthy
response text is trimmed, parsed, and the parsed array returned as-is; a
falsy response text yields the empty array. -/
def batchIdentifyProvinces (parseJson : String → Except Unit (List String))
    (points : List (ℚ × ℚ)) (outcome : ProviderOutcome) : List String :=
  if points.isEmpty then []
  else
    match outcome with
    | ProviderOutcome.throw => points.map (fun _ => "Unknown Province")
    | ProviderOutcome.ok text =>
      if text = "" then []
      else
        match parseJson (jsTrim text) with
        | Except.ok arr => arr
        | Except.error _ => points.map (fun _ => "Unknown Province")

/-! ### Helper lemmas about the marker scan -/

theorem scanStep_covering (dist : DistFn) (pin : PointMarker) (st : ScanState)
    (m : CircleMarker) :
    (scanStep dist pin st m).coveringZones =
      if mdist dist pin m ≤ 50000 then st.coveringZones ++ [m.label]
      else st.coveringZones := by
  unfold scanStep
  dsimp only
  split <;> rfl

theorem scanStep_nearest_of_none (dist : DistFn) (pin : PointMarker)
    (st : ScanState) (m : CircleMarker) (h : st.nearestDist = Option.none) :
    (scanStep dist pin st m).nearestDist = some (mdist dist pin m) ∧
    (scanStep dist pin st m).nearestZ = some m.label := by
  simp [scanStep, h]

theorem scanStep_nearest_of_lt (dist : DistFn) (pin : PointMarker)
    (st : ScanState) (m : CircleMarker) (nd : ℚ)
    (h : st.nearestDist = some nd) (hlt : mdist dist pin m < nd) :
    (scanStep dist pin st m).nearestDist = some (mdist dist pin m) ∧
    (scanStep dist pin st m).nearestZ = some m.label := by
  simp [scanStep, h, hlt]

theorem scanStep_nearest_of_ge (dist : DistFn) (pin : PointMarker)
    (st : ScanState) (m : CircleMarker) (nd : ℚ)
    (h : st.nearestDist = some nd) (hge : ¬ mdist dist pin m < nd) :
    (scanStep dist pin st m).nearestDist = some nd ∧
    (scanStep dist pin st m).nearestZ = st.nearestZ := by
  simp [scanStep, h, hge]

theorem scan_covering_aux (dist : DistFn) (pin : PointMarker) :
    ∀ (ms : List CircleMarker) (st : ScanState),
      (ms.foldl (scanStep dist pin) st).coveringZones =
        st.coveringZones ++
          (ms.filter (fun m => decide (mdist dist pin m ≤ 50000))).map
            CircleMarker.label := by
  intro ms
  induction ms with
  | nil => intro st; simp
  | cons m ms ih =>
    intro st
    rw [List.foldl_cons, ih, scanStep_covering]
    by_cases h : mdist dist pin m ≤ 50000
    · simp [h, List.filter_cons]
    · simp [h, List.filter_cons]

theorem scan_coveringZones (dist : DistFn) (pin : PointMarker)
    (markers : List CircleMarker) :
    (scanMarkers dist pin markers).coveringZones =
      (markers.filter (fun m => decide (mdist dist pin m ≤ 50000))).map
        CircleMarker.label := by
  have h := scan_covering_aux dist pin markers ⟨Option.none, Option.none, []⟩
  simpa [scanMarkers] using h

theorem scanMarkers_nil (dist : DistFn) (pin : PointMarker) :
    scanMarkers dist pin [] = ⟨Option.none, Option.none, []⟩ := rfl

/-- The scan keeps the first marker achieving the minimal distance: the list
decomposes around a marker whose distance is the recorded minimum, every
earlier marker being strictly farther and every later one at least as far. -/
theorem scan_first_min (dist : DistFn) (pin : PointMarker) :
    ∀ (markers : List CircleMarker), markers ≠ [] →
      ∃ pre best post, markers = pre ++ best :: post ∧
        (scanMarkers dist pin markers).nearestDist =
          some (mdist dist pin best) ∧
        (scanMarkers dist pin markers).nearestZ = some best.label ∧
        (∀ x ∈ pre, mdist dist pin best < mdist dist pin x) ∧
        (∀ x ∈ post, mdist dist pin best ≤ mdist dist pin x) := by
  intro markers
  induction markers using List.reverseRecOn with
  | nil => intro h; exact absurd rfl h
  | append_singleton ms m ih =>
    intro _
    have hfold : scanMarkers dist pin (ms ++ [m]) =
        scanStep dist pin (scanMarkers dist pin ms) m := by
      unfold scanMarkers
      rw [List.foldl_append, List.foldl_cons, List.foldl_nil]
    by_cases hms : ms = []
    · subst hms
      have h0 : (scanMarkers dist pin []).nearestDist = Option.none := rfl
      obtain ⟨h1, h2⟩ := scanStep_nearest_of_none dist pin _ m h0
      refine ⟨[], m, [], by simp, ?_, ?_, by simp, by simp⟩
      · rw [hfold]; exact h1
      · rw [hfold]; exact h2
    · obtain ⟨pre, best, post, hsplit, hd, hz, hpre, hpost⟩ := ih hms
      by_cases hlt : mdist dist pin m < mdist dist pin best
      · obtain ⟨h1, h2⟩ := scanStep_nearest_of_lt dist pin _ m _ hd hlt
        refine ⟨ms, m, [], by simp, ?_, ?_, ?_, by simp⟩
        · rw [hfold]; exact h1
        · rw [hfold]; exact h2
        · intro x hx
          rw [hsplit] at hx
          rcases List.mem_append.mp hx with hx | hx
          · exact lt_trans hlt (hpre x hx)
          · rcases List.mem_cons.mp hx with rfl | hx
            · exact hlt
            · exact lt_of_lt_of_le hlt (hpost x hx)
      · obtain ⟨h1, h2⟩ := scanStep_nearest_of_ge dist pin _ m _ hd hlt
        refine ⟨pre, best, post ++ [m], by rw [hsplit]; simp, ?_, ?_, hpre, ?_⟩
        · rw [hfold, h1]
        · rw [hfold, h2, hz]
        · intro x hx
          rcases List.mem_append.mp hx with hx | hx
          · exact hpost x hx
          · rcases List.mem_singleton.mp hx with rfl
            exact le_of_not_lt hlt

/-! ### Status classification lemmas -/

theorem statusOf_covered_iff (d : ℚ) :
    statusOf (some d) = CoverageStatus.covered ↔ d ≤ 50000 := by
  simp only [statusOf]
  split_ifs with h1 h2 <;> simp_all

theorem statusOf_near_iff (d : ℚ) :
    statusOf (some d) = CoverageStatus.near ↔ 50000 < d ∧ d ≤ 100000 := by
  simp only [statusOf]
  split_ifs with h1 h2 <;> simp_all <;> linarith

theorem statusOf_none_iff (d : ℚ) :
    statusOf (some d) = CoverageStatus.none ↔ 100000 < d := by
  simp only [statusOf]
  split_ifs with h1 h2 <;> simp_all <;> linarith

/-! ### Helper lemmas about the pin pass -/

theorem processPin_snd (dist : DistFn) (markers : List CircleMarker)
    (counts : String → ℕ) (pin : PointMarker) :
    (processPin dist markers counts pin).2 = (allocLabel counts pin).2 := rfl

theorem processPin_label (dist : DistFn) (markers : List CircleMarker)
    (counts : String → ℕ) (pin : PointMarker) :
    (processPin dist markers counts pin).1.label = (allocLabel counts pin).1 := rfl

/-- Every per-pin field that does not depend on the running counters is mapped
uniformly by the pass. -/
theorem processPinsAux_map {α : Type} (dist : DistFn)
    (markers : List CircleMarker) (f : ProcessedPin → α) (g : PointMarker → α)
    (hfg : ∀ counts pin, f (processPin dist markers counts pin).1 = g pin) :
    ∀ (pins : List PointMarker) (counts : String → ℕ),
      (processPinsAux dist markers counts pins).map f = pins.map g := by
  intro pins
  induction pins with
  | nil => intro counts; rfl
  | cons pin rest ih =>
    intro counts
    simp only [processPinsAux, List.map_cons, hfg, ih]

theorem processPinsAux_length (dist : DistFn) (markers : List CircleMarker) :
    ∀ (pins : List PointMarker) (counts : String → ℕ),
      (processPinsAux dist markers counts pins).length = pins.length := by
  intro pins
  induction pins with
  | nil => intro counts; rfl
  | cons pin rest ih => intro counts; simp [processPinsAux, ih]

/-- The running counters after a batch of pins. -/
def countsAfter (counts : String → ℕ) (pins : List PointMarker) :
    String → ℕ :=
  pins.foldl (fun c q => (allocLabel c q).2) counts

theorem processPinsAux_append (dist : DistFn) (markers : List CircleMarker) :
    ∀ (l1 l2 : List PointMarker) (counts : String → ℕ),
      processPinsAux dist markers counts (l1 ++ l2) =
        processPinsAux dist markers counts l1 ++
          processPinsAux dist markers (countsAfter counts l1) l2 := by
  intro l1
  induction l1 with
  | nil => intro l2 counts; rfl
  | cons q l1 ih =>
    intro l2 counts
    simp only [List.cons_append, processPinsAux, List.append_eq]
    rw [ih]
    rfl

/-- Final labels do not depend on the hub collection. -/
theorem processPinsAux_label_markers (dist : DistFn)
    (markers markers2 : List CircleMarker) :
    ∀ (pins : List PointMarker) (counts : String → ℕ),
      (processPinsAux dist markers counts pins).map ProcessedPin.label =
        (processPinsAux dist markers2 counts pins).map ProcessedPin.label := by
  intro pins
  induction pins with
  | nil => intro counts; rfl
  | cons pin rest ih =>
    intro counts
    simp only [processPinsAux, List.map_cons, processPin_label, processPin_snd, ih]

/-- A pin whose `customLabel` flag is set keeps its stored label. -/
theorem processPinsAux_label_custom (dist : DistFn)
    (markers : List CircleMarker) :
    ∀ (pins : List PointMarker) (counts : String → ℕ) (i : ℕ)
      (pin : PointMarker), pins.get? i = some pin → pin.customLabel = true →
      ((processPinsAux dist markers counts pins).get? i).map
          ProcessedPin.label = some pin.label := by
  intro pins
  induction pins with
  | nil => intro counts i pin h; simp at h
  | cons q rest ih =>
    intro counts i pin hget hcust
    cases i with
    | zero =>
      simp only [List.get?] at hget
      injection hget with hq
      subst hq
      simp only [processPinsAux, List.get?, Option.map_some', processPin_label]
      rcases hp : q.province with _ | p
      · simp [allocLabel, hp]
      · simp [allocLabel, hp, hcust]
    | succ j =>
      simp only [List.get?] at hget
      simp only [processPinsAux, List.get?]
      exact ih _ j pin hget hcust

/-- The string computed by the numbering branch of `processedBulkPins`. -/
def numberedLabel (p : String) (c : ℕ) : String :=
  if c = 0 then p else p ++ " " ++ toString (c + 1)

/-- The number of earlier pins that bump the counter of province `p`. -/
def countSameProvince (p : String) (l : List PointMarker) : ℕ :=
  (l.filter (fun q => decide (q.province = some p) && !q.customLabel)).length

theorem allocLabel_eligible (counts : String → ℕ) (pin : PointMarker)
    (p : String) (hprov : pin.province = some p) (hp : p ≠ "")
    (hcust : pin.customLabel = false) :
    (allocLabel counts pin).1 = numberedLabel p (counts p) ∧
    (allocLabel counts pin).2 = fun q => if q = p then counts p + 1 else counts q := by
  unfold allocLabel numberedLabel
  rw [hprov]
  simp [hp, hcust]

/-- How one allocation step moves the counter of a fixed province `p`
(`p` non-empty): it is bumped exactly when the pin is counted by
`countSameProvince`. -/
theorem allocLabel_counts_at (counts : String → ℕ) (q : PointMarker)
    (p : String) (hp : p ≠ "") :
    (allocLabel counts q).2 p =
      counts p + (if q.province = some p ∧ q.customLabel = false then 1 else 0) := by
  rcases hq : q.province with _ | r
  · simp [allocLabel, hq]
  · by_cases hc : q.customLabel = false
    · by_cases hr : r = ""
      · subst hr
        have hne : (some "" : Option String) ≠ some p := by
          intro h
          exact hp (Option.some_inj.mp h).symm
        simp [allocLabel, hq, hc, hne]
      · by_cases hrp : r = p
        · subst hrp
          simp [allocLabel, hq, hr, hc]
        · have hne : (some r : Option String) ≠ some p := by
            intro h
            exact hrp (Option.some_inj.mp h)
          have hpr : p ≠ r := fun h => hrp h.symm
          simp [allocLabel, hq, hr, hc, hpr, hne]
    · simp [allocLabel, hq, hc]

/-- Label of an eligible pin: its province numbered by the counter value plus
the number of earlier counted pins of the same province. -/
theorem processPinsAux_label_eligible (dist : DistFn)
    (markers : List CircleMarker) :
    ∀ (pins : List PointMarker) (counts : String → ℕ) (i : ℕ)
      (pin : PointMarker) (p : String),
      pins.get? i = some pin → pin.province = some p → p ≠ "" →
      pin.customLabel = false →
      ((processPinsAux dist markers counts pins).get? i).map
          ProcessedPin.label =
        some (numberedLabel p (counts p + countSameProvince p (pins.take i))) := by
  intro pins
  induction pins with
  | nil => intro counts i pin p h; simp at h
  | cons q rest ih =>
    intro counts i pin p hget hprov hp hcust
    cases i with
    | zero =>
      simp only [List.get?] at hget
      injection hget with hq
      subst hq
      simp only [processPinsAux, List.get?, Option.map_some', processPin_label]
      rw [(allocLabel_eligible counts q p hprov hp hcust).1]
      simp [countSameProvince]
    | succ j =>
      simp only [List.get?] at hget
      simp only [processPinsAux, List.get?]
      rw [processPin_snd]
      rw [ih _ j pin p hget hprov hp hcust]
      have hcount : (allocLabel counts q).2 p + countSameProvince p (rest.take j) =
          counts p + countSameProvince p ((q :: rest).take (j + 1)) := by
        rw [allocLabel_counts_at counts q p hp]
        simp only [List.take_succ_cons, countSameProvince, List.filter_cons]
        by_cases hq : q.province = some p ∧ q.customLabel = false
        · have hfilter : (decide (q.province = some p) && !q.customLabel) = true := by
            simp [hq.1, hq.2]
          simp [hq, hfilter]
          omega
        · have hfilter : (decide (q.province = some p) && !q.customLabel) = false := by
            rcases not_and_or.mp hq with h | h
            · simp [h]
            · cases hcb : q.customLabel
              · exact absurd hcb h
              · simp [hcb]
          simp [hq, hfilter]
      rw [hcount]

/-! ### Category partition -/

theorem length_eq_sum_categories (l : List ProcessedPin) :
    l.length =
      (l.filter (fun p => decide (p.category = PinCategory.Existing))).length +
      (l.filter (fun p => decide (p.category = PinCategory.Request))).length +
      (l.filter (fun p => decide (p.category = PinCategory.Pending))).length +
      (l.filter (fun p => decide (p.category = PinCategory.Outzone))).length := by
  induction l with
  | nil => rfl
  | cons p l ih =>
    rcases hc : p.category <;>
      simp [List.filter_cons, hc, ih] <;> omega

/-! ### Helper lemmas about the line parser -/

theorem trimChars_eq_nil_iff (cs : List Char) :
    trimChars cs = [] ↔ ∀ c ∈ cs, isWsChar c = true := by
  unfold trimChars
  rw [List.reverse_eq_nil_iff, List.dropWhile_eq_nil_iff]
  simp only [List.mem_reverse]
  constructor
  · intro h c hc
    rw [← List.takeWhile_append_dropWhile (p := isWsChar) (l := cs)] at hc
    rcases List.mem_append.mp hc with hc | hc
    · exact List.mem_takeWhile_imp hc
    · exact h c hc
  · intro h x hx
    apply h
    rw [← List.takeWhile_append_dropWhile (p := isWsChar) (l := cs)]
    exact List.mem_append.mpr (Or.inr hx)

theorem tryUrlAt_ws (c : Char) (cs : List Char) (hc : isWsChar c = true) :
    tryUrlAt (c :: cs) = Option.none := by
  have h3 : (c = ' ' ∨ c = '\t') ∨ c = '\r' := by
    simpa [isWsChar] using hc
  rcases h3 with (rfl | rfl) | rfl <;> rfl

theorem tryBareAt_ws (c : Char) (cs : List Char) (hc : isWsChar c = true) :
    tryBareAt (c :: cs) = Option.none := by
  have h3 : (c = ' ' ∨ c = '\t') ∨ c = '\r' := by
    simpa [isWsChar] using hc
  rcases h3 with (rfl | rfl) | rfl <;> rfl

theorem findFirst_none_of_ws (p : List Char → Option (ℚ × ℚ))
    (hp : ∀ c cs, isWsChar c = true → p (c :: cs) = Option.none)
    (hnil : p [] = Option.none) :
    ∀ cs, (∀ c ∈ cs, isWsChar c = true) → findFirst p cs = Option.none := by
  intro cs
  induction cs with
  | nil => intro _; simp [findFirst, hnil]
  | cons c cs ih =>
    intro h
    have hc := h c (List.mem_cons_self c cs)
    have hcs : ∀ x ∈ cs, isWsChar x = true :=
      fun x hx => h x (List.mem_cons_of_mem c hx)
    unfold findFirst
    rw [hp c cs hc, ih hcs]

/-! ### Concrete fixtures used by witnesses and counterexamples -/

def counts0 : String → ℕ := fun _ => 0

def pinChonA : PointMarker :=
  ⟨"p1", 1, 2, "#16a34a", "Chonburi", some "Chonburi", false, PinCategory.Existing⟩

def pinChonB : PointMarker :=
  ⟨"p2", 3, 4, "#16a34a", "Chonburi", some "Chonburi", false, PinCategory.Existing⟩

def pinPhuket : PointMarker :=
  ⟨"p3", 5, 6, "#16a34a", "Phuket", some "Phuket", false, PinCategory.Existing⟩

def hubBkk : CircleMarker := ⟨"h1", 13.7367, 100.5232, 50000, 100000, "Hub A"⟩

def hubB2 : CircleMarker := ⟨"h2", 14, 101, 50000, 100000, "Hub B"⟩

def dist49999 : DistFn := fun _ _ _ _ => 49999

def dist50001 : DistFn := fun _ _ _ _ => 50001

def dist100001 : DistFn := fun _ _ _ _ => 100001

def distTie : DistFn := fun _ _ _ _ => 7

def dist0 : DistFn := fun _ _ _ _ => 0

/-! ### Claims -/

/-- C1: for every point and hub collection, the enrichment pass classifies the
point `covered` iff the nearest-hub distance is at most 50000 m, `near` iff it
is strictly above 50000 m and at most 100000 m, and `none` otherwise; in
particular a nearest distance of exactly 49999 is `covered`, 50001 is `near`
and 100001 is `none`; with an empty hub collection the status is `none`, the
nearest-hub and distance fields are undefined, and the covering set is
empty. -/
theorem claim1_coverage_classification (dist : DistFn)
    (markers : List CircleMarker) (counts : String → ℕ) (pin : PointMarker) :
    (markers = [] →
      (processPin dist markers counts pin).1.coverageStatus = CoverageStatus.none ∧
      (processPin dist markers counts pin).1.distanceToNearest = Option.none ∧
      (processPin dist markers counts pin).1.nearestZone = Option.none ∧
      (processPin dist markers counts pin).1.allZones = "" ∧
      (scanMarkers dist pin markers).coveringZones = []) ∧
    (markers ≠ [] →
      ∃ d, (scanMarkers dist pin markers).nearestDist = some d ∧
        (∃ m ∈ markers, d = mdist dist pin m) ∧
        (∀ m ∈ markers, d ≤ mdist dist pin m) ∧
        ((processPin dist markers counts pin).1.coverageStatus =
            CoverageStatus.covered ↔ d ≤ 50000) ∧
        ((processPin dist markers counts pin).1.coverageStatus =
            CoverageStatus.near ↔ 50000 < d ∧ d ≤ 100000) ∧
        ((processPin dist markers counts pin).1.coverageStatus =
            CoverageStatus.none ↔ 100000 < d) ∧
        (d = 49999 → (processPin dist markers counts pin).1.coverageStatus =
            CoverageStatus.covered) ∧
        (d = 50001 → (processPin dist markers counts pin).1.coverageStatus =
            CoverageStatus.near) ∧
        (d = 100001 → (processPin dist markers counts pin).1.coverageStatus =
            CoverageStatus.none)) := by
  constructor
  · rintro rfl
    exact ⟨rfl, rfl, rfl, rfl, rfl⟩
  · intro hne
    obtain ⟨pre, best, post, hsplit, hd, hz, hpre, hpost⟩ :=
      scan_first_min dist pin markers hne
    have hst : (processPin dist markers counts pin).1.coverageStatus =
        statusOf (some (mdist dist pin best)) := by
      show statusOf (scanMarkers dist pin markers).nearestDist = _
      rw [hd]
    have hmin : ∀ m ∈ markers, mdist dist pin best ≤ mdist dist pin m := by
      intro m hm
      rw [hsplit] at hm
      rcases List.mem_append.mp hm with hm | hm
      · exact le_of_lt (hpre m hm)
      · rcases List.mem_cons.mp hm with rfl | hm
        · exact le_refl _
        · exact hpost m hm
    refine ⟨mdist dist pin best, hd, ⟨best, ?_, rfl⟩, hmin, ?_, ?_, ?_, ?_, ?_, ?_⟩
    · rw [hsplit]
      exact List.mem_append.mpr (Or.inr (List.mem_cons_self _ _))
    · rw [hst]; exact statusOf_covered_iff _
    · rw [hst]; exact statusOf_near_iff _
    · rw [hst]; exact statusOf_none_iff _
    · intro h49; rw [hst, h49]; decide
    · intro h51; rw [hst, h51]; decide
    · intro h100; rw [hst, h100]; decide

/-- Witness for C1 at concrete inputs: with a single hub at distance exactly
49999, 50001 and 100001 the status is covered, near and none respectively. -/
theorem claim1_witness :
    (processPin dist49999 [hubBkk] counts0 pinChonA).1.coverageStatus =
      CoverageStatus.covered ∧
    (processPin dist50001 [hubBkk] counts0 pinChonA).1.coverageStatus =
      CoverageStatus.near ∧
    (processPin dist100001 [hubBkk] counts0 pinChonA).1.coverageStatus =
      CoverageStatus.none := by
  refine ⟨?_, ?_, ?_⟩
  · obtain ⟨-, h⟩ := claim1_coverage_classification dist49999 [hubBkk] counts0 pinChonA
    obtain ⟨d, hd, -, -, -, -, -, h49, -, -⟩ := h (by simp)
    refine h49 ?_
    have hc : (scanMarkers dist49999 pinChonA [hubBkk]).nearestDist = some 49999 := by
      decide
    rw [hc] at hd
    exact (Option.some_inj.mp hd).symm
  · obtain ⟨-, h⟩ := claim1_coverage_classification dist50001 [hubBkk] counts0 pinChonA
    obtain ⟨d, hd, -, -, -, -, -, -, h51, -⟩ := h (by simp)
    refine h51 ?_
    have hc : (scanMarkers dist50001 pinChonA [hubBkk]).nearestDist = some 50001 := by
      decide
    rw [hc] at hd
    exact (Option.some_inj.mp hd).symm
  · obtain ⟨-, h⟩ := claim1_coverage_classification dist100001 [hubBkk] counts0 pinChonA
    obtain ⟨d, hd, -, -, -, -, -, -, -, h100⟩ := h (by simp)
    refine h100 ?_
    have hc : (scanMarkers dist100001 pinChonA [hubBkk]).nearestDist = some 100001 := by
      decide
    rw [hc] at hd
    exact (Option.some_inj.mp hd).symm

/-- C2: for a non-empty hub collection, the hub collection splits around a hub
`best` whose label the pass records as `nearestZone` and whose distance,
divided by 1000 (metres to kilometres), it records as `distanceToNearest`;
`best` achieves the minimal distance over all hubs and every hub before it in
iteration order is strictly farther (ties keep the first hub). -/
theorem claim2_nearest_zone (dist : DistFn) (markers : List CircleMarker)
    (counts : String → ℕ) (pin : PointMarker) (h : markers ≠ []) :
    ∃ pre best post, markers = pre ++ best :: post ∧
      (processPin dist markers counts pin).1.nearestZone = some best.label ∧
      (processPin dist markers counts pin).1.distanceToNearest =
        some (mdist dist pin best / 1000) ∧
      (∀ m ∈ markers, mdist dist pin best ≤ mdist dist pin m) ∧
      (∀ m ∈ pre, mdist dist pin best < mdist dist pin m) := by
  obtain ⟨pre, best, post, hsplit, hd, hz, hpre, hpost⟩ :=
    scan_first_min dist pin markers h
  refine ⟨pre, best, post, hsplit, ?_, ?_, ?_, hpre⟩
  · show (scanMarkers dist pin markers).nearestZ = some best.label
    exact hz
  · show ((scanMarkers dist pin markers).nearestDist).map (fun d => d / 1000) =
      some (mdist dist pin best / 1000)
    rw [hd]
    rfl
  · intro m hm
    rw [hsplit] at hm
    rcases List.mem_append.mp hm with hm | hm
    · exact le_of_lt (hpre m hm)
    · rcases List.mem_cons.mp hm with rfl | hm
      · exact le_refl _
      · exact hpost m hm

/-- Witness for C2 at a concrete input: two hubs at tied distance 7. -/
theorem claim2_witness :
    ∃ pre best post, ([hubBkk, hubB2] : List CircleMarker) = pre ++ best :: post ∧
      (processPin distTie [hubBkk, hubB2] counts0 pinChonA).1.nearestZone =
        some best.label ∧
      (processPin distTie [hubBkk, hubB2] counts0 pinChonA).1.distanceToNearest =
        some (mdist distTie pinChonA best / 1000) ∧
      (∀ m ∈ ([hubBkk, hubB2] : List CircleMarker),
        mdist distTie pinChonA best ≤ mdist distTie pinChonA m) ∧
      (∀ m ∈ pre, mdist distTie pinChonA best < mdist distTie pinChonA m) :=
  claim2_nearest_zone distTie [hubBkk, hubB2] counts0 pinChonA (by simp)

/-- C7: a label is in the covering set iff some hub carrying that label lies
within its primary radius of the point (all hubs having the app-fixed primary
radius 50000), and the covering set is exported (joined with "; ") in a field
distinct from the single nearest-hub field. -/
theorem claim7_covering_set (dist : DistFn) (markers : List CircleMarker)
    (counts : String → ℕ) (pin : PointMarker)
    (hrad : ∀ m ∈ markers, m.radius = 50000) :
    (∀ l, l ∈ (scanMarkers dist pin markers).coveringZones ↔
        ∃ m ∈ markers, m.label = l ∧ mdist dist pin m ≤ m.radius) ∧
    (processPin dist markers counts pin).1.allZones =
      String.intercalate ("; ") (scanMarkers dist pin markers).coveringZones ∧
    (processPin dist markers counts pin).1.nearestZone =
      (scanMarkers dist pin markers).nearestZ := by
  refine ⟨?_, rfl, rfl⟩
  intro l
  rw [scan_coveringZones]
  constructor
  · intro hl
    obtain ⟨m, hm, hlbl⟩ := List.mem_map.mp hl
    obtain ⟨hmem, hle⟩ := List.mem_filter.mp hm
    refine ⟨m, hmem, hlbl, ?_⟩
    rw [hrad m hmem]
    exact of_decide_eq_true hle
  · rintro ⟨m, hmem, hlbl, hle⟩
    apply List.mem_map.mpr
    refine ⟨m, List.mem_filter.mpr ⟨hmem, ?_⟩, hlbl⟩
    rw [hrad m hmem] at hle
    exact decide_eq_true hle

/-- Witness for C7 at a concrete input: a point within 50000 m of two hubs
appears in both covering sets. -/
theorem claim7_witness :
    ("Hub A" ∈ (scanMarkers dist49999 pinChonA [hubBkk, hubB2]).coveringZones) ∧
    ("Hub B" ∈ (scanMarkers dist49999 pinChonA [hubBkk, hubB2]).coveringZones) := by
  have h := (claim7_covering_set dist49999 [hubBkk, hubB2] counts0 pinChonA
    (by decide)).1
  constructor
  · exact (h ("Hub A")).mpr ⟨hubBkk, by simp, rfl, by decide⟩
  · exact (h ("Hub B")).mpr ⟨hubB2, by simp, rfl, by decide⟩

/-- C4: among pins sharing the same (non-empty) resolved province and without
the custom flag, the pass labels the first occurrence with the bare province
name and the k-th occurrence (k at least 2) with the province name suffixed by
k, in iteration order. -/
theorem claim4_label_numbering (dist : DistFn) (markers : List CircleMarker)
    (pins : List PointMarker) (i : ℕ) (pin : PointMarker) (p : String)
    (hget : pins.get? i = some pin) (hprov : pin.province = some p)
    (hp : p ≠ "") (hcust : pin.customLabel = false) :
    ((processedBulkPins dist markers pins).get? i).map ProcessedPin.label =
      some (numberedLabel p (countSameProvince p (pins.take i))) ∧
    (countSameProvince p (pins.take i) = 0 →
      ((processedBulkPins dist markers pins).get? i).map ProcessedPin.label =
        some p) ∧
    (∀ k, countSameProvince p (pins.take i) + 1 = k → 2 ≤ k →
      ((processedBulkPins dist markers pins).get? i).map ProcessedPin.label =
        some (p ++ " " ++ toString k)) := by
  have hmain0 := processPinsAux_label_eligible dist markers pins (fun _ => 0)
    i pin p hget hprov hp hcust
  simp only [Nat.zero_add] at hmain0
  have hmain : ((processedBulkPins dist markers pins).get? i).map
      ProcessedPin.label =
      some (numberedLabel p (countSameProvince p (pins.take i))) := hmain0
  refine ⟨hmain, ?_, ?_⟩
  · intro h0
    rw [hmain, h0]
    rfl
  · intro k hk h2
    rw [hmain]
    unfold numberedLabel
    have hne : countSameProvince p (pins.take i) ≠ 0 := by omega
    rw [if_neg hne, hk]

/-- Witness for C4: provinces Chonburi, Chonburi, Phuket yield the labels
Chonburi, Chonburi 2, Phuket. -/
theorem claim4_witness :
    ((processedBulkPins dist0 [] [pinChonA, pinChonB, pinPhuket]).get? 0).map
        ProcessedPin.label = some "Chonburi" ∧
    ((processedBulkPins dist0 [] [pinChonA, pinChonB, pinPhuket]).get? 1).map
        ProcessedPin.label = some "Chonburi 2" ∧
    ((processedBulkPins dist0 [] [pinChonA, pinChonB, pinPhuket]).get? 2).map
        ProcessedPin.label = some "Phuket" := by
  refine ⟨?_, ?_, ?_⟩
  · have h := (claim4_label_numbering dist0 [] [pinChonA, pinChonB, pinPhuket]
      0 pinChonA ("Chonburi") rfl rfl (by decide) rfl).1
    rw [h]
    decide
  · have h := (claim4_label_numbering dist0 [] [pinChonA, pinChonB, pinPhuket]
      1 pinChonB ("Chonburi") rfl rfl (by decide) rfl).1
    rw [h]
    decide
  · have h := (claim4_label_numbering dist0 [] [pinChonA, pinChonB, pinPhuket]
      2 pinPhuket ("Phuket") rfl rfl (by decide) rfl).1
    rw [h]
    decide

/-- C5 (counterexample): the claim that a point's final label never changes
under later collection changes is false: two Chonburi points give the second
the final label "Chonburi 2", and removing the first point changes the
second's final label to "Chonburi" on the next enrichment pass. -/
theorem claim5_counterexample :
    ((processedBulkPins dist0 [] [pinChonA, pinChonB]).get? 1).map
        ProcessedPin.label = some "Chonburi 2" ∧
    handleRemovePin [pinChonA, pinChonB] ("p1") = [pinChonB] ∧
    ((processedBulkPins dist0 []
        (handleRemovePin [pinChonA, pinChonB] ("p1"))).get? 0).map
        ProcessedPin.label = some "Chonburi" := by
  refine ⟨by decide, by decide, by decide⟩

/-- C5 (amended): the counters are scoped to one enrichment pass, but that
pass spans the entire stored point collection (all earlier import batches):
appending newly imported points never changes the processed output for the
existing prefix, and the hub collection never influences any final label, but
removal of an earlier point can renumber a later one (see the
counterexample). -/
theorem claim5_amended (dist : DistFn) (markers markers2 : List CircleMarker)
    (pins newPins : List PointMarker) :
    (processedBulkPins dist markers (pins ++ newPins)).take pins.length =
      processedBulkPins dist markers pins ∧
    (processedBulkPins dist markers pins).map ProcessedPin.label =
      (processedBulkPins dist markers2 pins).map ProcessedPin.label := by
  constructor
  · unfold processedBulkPins
    rw [processPinsAux_append]
    exact List.take_left' (processPinsAux_length dist markers pins _)
  · exact processPinsAux_label_markers dist markers markers2 pins _

/-- C6 (counterexample): for three input points, a provider call that resolves
successfully with an empty response text returns the empty list, not three
sentinel strings, so the resolver does not always return a same-length
sequence. -/
theorem claim6_counterexample :
    ([((1 : ℚ), (2 : ℚ)), (3, 4), (5, 6)] : List (ℚ × ℚ)).length = 3 ∧
    batchIdentifyProvinces (fun _ => Except.error ())
      [((1 : ℚ), (2 : ℚ)), (3, 4), (5, 6)] (ProviderOutcome.ok "") = [] := by
  exact ⟨rfl, rfl⟩

/-- C6 (amended): an empty input batch returns the empty sequence regardless
of the provider outcome (the provider is never consulted); a thrown transport
failure, and a response whose JSON parse throws, are caught and yield exactly
one "Unknown Province" sentinel per input point; but a successful response
with empty text yields the empty list, and a parsed array is returned as-is,
so the same-length guarantee holds only for thrown failures. -/
theorem claim6_amended (parseJson : String → Except Unit (List String))
    (points : List (ℚ × ℚ)) (o : ProviderOutcome) :
    batchIdentifyProvinces parseJson [] o = [] ∧
    batchIdentifyProvinces parseJson points ProviderOutcome.throw =
      points.map (fun _ => "Unknown Province") ∧
    (batchIdentifyProvinces parseJson points ProviderOutcome.throw).length =
      points.length ∧
    (∀ text, parseJson (jsTrim text) = Except.error () →
      batchIdentifyProvinces parseJson points (ProviderOutcome.ok text) =
        if text = "" then [] else points.map (fun _ => "Unknown Province")) := by
  have hthrow : batchIdentifyProvinces parseJson points ProviderOutcome.throw =
      points.map (fun _ => "Unknown Province") := by
    cases points with
    | nil => rfl
    | cons a l => rfl
  refine ⟨rfl, hthrow, ?_, ?_⟩
  · rw [hthrow, List.length_map]
  · intro text hparse
    cases points with
    | nil =>
      simp [batchIdentifyProvinces]
    | cons a l =>
      by_cases ht : text = ""
      · simp [batchIdentifyProvinces, ht]
      · simp [batchIdentifyProvinces, ht, hparse]

/-- Witness for C6 (amended) at a concrete input: three points with a
response whose parse throws yield exactly three sentinels. -/
theorem claim6_witness :
    batchIdentifyProvinces (fun _ => Except.error ())
        [((1 : ℚ), (2 : ℚ)), (3, 4), (5, 6)] (ProviderOutcome.ok "junk") =
      ["Unknown Province", "Unknown Province", "Unknown Province"] := by
  have h := (claim6_amended (fun _ => Except.error ())
    [((1 : ℚ), (2 : ℚ)), (3, 4), (5, 6)] (ProviderOutcome.ok "junk")).2.2.2
    ("junk") rfl
  rw [h]
  decide

/-- C9: renaming with a non-empty (after trim) name stores the new name
verbatim and sets the custom flag on every pin with the given id; and any pin
whose custom flag is set keeps exactly its stored label through every
enrichment pass. -/
theorem claim9_rename_custom (pins : List PointMarker) (pid newName : String)
    (h : jsTrim newName ≠ "") :
    handleRenamePin pins pid newName =
      pins.map (fun p => if p.id = pid then
        { p with label := newName, customLabel := true } else p) ∧
    (∀ (dist : DistFn) (markers : List CircleMarker)
       (pins2 : List PointMarker) (i : ℕ) (pin : PointMarker),
       pins2.get? i = some pin → pin.customLabel = true →
       ((processedBulkPins dist markers pins2).get? i).map ProcessedPin.label =
         some pin.label) := by
  constructor
  · unfold handleRenamePin
    rw [if_neg h]
  · intro dist markers pins2 i pin hget hcust
    exact processPinsAux_label_custom dist markers pins2 _ i pin hget hcust

/-- Witness for C9 at a concrete input: renaming sets label and flag, and the
renamed pin keeps its label even though the province numbering would compute
"Chonburi" for it. -/
theorem claim9_witness :
    handleRenamePin [pinChonA] ("p1") ("My Label") =
      [{ pinChonA with label := "My Label", customLabel := true }] ∧
    ((processedBulkPins dist0 []
        [{ pinChonA with label := "My Label", customLabel := true },
         pinChonB]).get? 0).map ProcessedPin.label = some "My Label" := by
  obtain ⟨h1, h2⟩ := claim9_rename_custom [pinChonA] ("p1") ("My Label")
    (by decide)
  constructor
  · rw [h1]
    decide
  · exact h2 dist0 []
      [{ pinChonA with label := "My Label", customLabel := true }, pinChonB] 0
      { pinChonA with label := "My Label", customLabel := true } rfl rfl

/-- C10: the enrichment pass is per-point non-destructive: same length and
order as the stored collection, the stored fields id, lat, lng, color,
category, province and custom flag are passed through unchanged, and only the
coverage fields (and the label) are recomputed, as pure functions of the
point and the current hub collection. -/
theorem claim10_non_destructive (dist : DistFn) (markers : List CircleMarker)
    (pins : List PointMarker) :
    (processedBulkPins dist markers pins).length = pins.length ∧
    (processedBulkPins dist markers pins).map ProcessedPin.id =
      pins.map PointMarker.id ∧
    (processedBulkPins dist markers pins).map ProcessedPin.lat =
      pins.map PointMarker.lat ∧
    (processedBulkPins dist markers pins).map ProcessedPin.lng =
      pins.map PointMarker.lng ∧
    (processedBulkPins dist markers pins).map ProcessedPin.color =
      pins.map PointMarker.color ∧
    (processedBulkPins dist markers pins).map ProcessedPin.category =
      pins.map PointMarker.category ∧
    (processedBulkPins dist markers pins).map ProcessedPin.province =
      pins.map PointMarker.province ∧
    (processedBulkPins dist markers pins).map ProcessedPin.customLabel =
      pins.map PointMarker.customLabel ∧
    (processedBulkPins dist markers pins).map ProcessedPin.coverageStatus =
      pins.map (fun p => statusOf (scanMarkers dist p markers).nearestDist) ∧
    (processedBulkPins dist markers pins).map ProcessedPin.distanceToNearest =
      pins.map (fun p =>
        ((scanMarkers dist p markers).nearestDist).map (fun d => d / 1000)) ∧
    (processedBulkPins dist markers pins).map ProcessedPin.nearestZone =
      pins.map (fun p => (scanMarkers dist p markers).nearestZ) ∧
    (processedBulkPins dist markers pins).map ProcessedPin.allZones =
      pins.map (fun p =>
        String.intercalate ("; ") (scanMarkers dist p markers).coveringZones) := by
  refine ⟨processPinsAux_length dist markers pins _, ?_, ?_, ?_, ?_, ?_, ?_, ?_,
    ?_, ?_, ?_, ?_⟩ <;>
    exact processPinsAux_map dist markers _ _ (fun counts pin => rfl) pins _

/-- C8: the summary export has one row per hub in order; each row counts, per
category and from the recomputed distance (not the precomputed nearest-hub
field), the points within that hub's primary radius (the app-fixed 50000 m),
and its total-covered count is the sum of the four category counts. -/
theorem claim8_summary (dist : DistFn) (markers : List CircleMarker)
    (pins : List PointMarker) (hrad : ∀ m ∈ markers, m.radius = 50000) :
    (handleExportSummary dist markers pins).length = markers.length ∧
    ∀ i m, markers.get? i = some m →
      (handleExportSummary dist markers pins).get? i =
        some (summaryRow dist (processedBulkPins dist markers pins) m) ∧
      (summaryRow dist (processedBulkPins dist markers pins) m).label =
        m.label ∧
      (summaryRow dist (processedBulkPins dist markers pins) m).lat = m.lat ∧
      (summaryRow dist (processedBulkPins dist markers pins) m).lng = m.lng ∧
      (summaryRow dist (processedBulkPins dist markers pins) m).existing =
        ((processedBulkPins dist markers pins).filter (fun p =>
          decide (p.category = PinCategory.Existing) &&
          decide (dist p.lat p.lng m.lat m.lng ≤ m.radius))).length ∧
      (summaryRow dist (processedBulkPins dist markers pins) m).request =
        ((processedBulkPins dist markers pins).filter (fun p =>
          decide (p.category = PinCategory.Request) &&
          decide (dist p.lat p.lng m.lat m.lng ≤ m.radius))).length ∧
      (summaryRow dist (processedBulkPins dist markers pins) m).pending =
        ((processedBulkPins dist markers pins).filter (fun p =>
          decide (p.category = PinCategory.Pending) &&
          decide (dist p.lat p.lng m.lat m.lng ≤ m.radius))).length ∧
      (summaryRow dist (processedBulkPins dist markers pins) m).outzone =
        ((processedBulkPins dist markers pins).filter (fun p =>
          decide (p.category = PinCategory.Outzone) &&
          decide (dist p.lat p.lng m.lat m.lng ≤ m.radius))).length ∧
      (summaryRow dist (processedBulkPins dist markers pins) m).totalCovered =
        (summaryRow dist (processedBulkPins dist markers pins) m).existing +
        (summaryRow dist (processedBulkPins dist markers pins) m).request +
        (summaryRow dist (processedBulkPins dist markers pins) m).pending +
        (summaryRow dist (processedBulkPins dist markers pins) m).outzone := by
  constructor
  · exact List.length_map markers _
  · intro i m hget
    have hrm : m.radius = 50000 := hrad m (List.get?_mem hget)
    have hrow : (handleExportSummary dist markers pins).get? i =
        some (summaryRow dist (processedBulkPins dist markers pins) m) := by
      unfold handleExportSummary
      rw [List.get?_map, hget]
      rfl
    have hcat : ∀ c : PinCategory,
        ((processedBulkPins dist markers pins).filter (fun p =>
            decide (dist p.lat p.lng m.lat m.lng ≤ 50000))).filter (fun p =>
            decide (p.category = c)) =
          (processedBulkPins dist markers pins).filter (fun p =>
            decide (p.category = c) &&
            decide (dist p.lat p.lng m.lat m.lng ≤ m.radius)) := by
      intro c
      rw [List.filter_filter]
      rw [hrm]
    refine ⟨hrow, rfl, rfl, rfl, ?_, ?_, ?_, ?_, ?_⟩
    · show (((processedBulkPins dist markers pins).filter _).filter _).length = _
      rw [hcat PinCategory.Existing]
    · show (((processedBulkPins dist markers pins).filter _).filter _).length = _
      rw [hcat PinCategory.Request]
    · show (((processedBulkPins dist markers pins).filter _).filter _).length = _
      rw [hcat PinCategory.Pending]
    · show (((processedBulkPins dist markers pins).filter _).filter _).length = _
      rw [hcat PinCategory.Outzone]
    · exact length_eq_sum_categories _

/-- Witness for C8 at a concrete input: two hubs at radius 50000, one pin in
range of both. -/
theorem claim8_witness :
    (handleExportSummary dist49999 [hubBkk, hubB2] [pinChonA]).length = 2 ∧
    (summaryRow dist49999 (processedBulkPins dist49999 [hubBkk, hubB2]
        [pinChonA]) hubBkk).totalCovered = 1 := by
  have h := claim8_summary dist49999 [hubBkk, hubB2] [pinChonA] (by decide)
  exact ⟨h.1, by decide⟩

/-- C3: a line on which the map-link pattern matches yields that coordinate
pair with no name, even with leading text; otherwise a line on which the bare
decimal-comma-decimal pattern matches yields that pair together with the
cleaned non-empty text before the match as explicit name (`beforeName`);
whitespace-only lines and lines matching neither pattern are dropped
silently; splitting is per line and the surviving candidates keep the
relative line order; the spec's three example lines parse as stated. -/
theorem claim3_parse :
    (∀ (line : String) (i : ℕ) (lat lng : ℚ),
      findFirst tryUrlAt line.data = some (i, lat, lng) →
      parseLine line = some ⟨lat, lng, Option.none⟩) ∧
    (∀ (line : String) (i : ℕ) (lat lng : ℚ),
      findFirst tryUrlAt line.data = Option.none →
      findFirst tryBareAt line.data = some (i, lat, lng) →
      parseLine line = some ⟨lat, lng, beforeName line.data i⟩) ∧
    (∀ line : String, (∀ c ∈ line.data, isWsChar c = true) →
      parseLine line = Option.none) ∧
    (∀ line : String, findFirst tryUrlAt line.data = Option.none →
      findFirst tryBareAt line.data = Option.none →
      parseLine line = Option.none) ∧
    (∀ t1 t2 : List String,
      parseLines (t1 ++ t2) = parseLines t1 ++ parseLines t2) ∧
    parseText ("https://maps.google.com/@13.1,100.2,15z") =
      [⟨13.1, 100.2, Option.none⟩] ∧
    parseText ("My Site, 18.787, 98.993") =
      [⟨18.787, 98.993, some "My Site"⟩] ∧
    parseText ("13.756, 100.501") = [⟨13.756, 100.501, Option.none⟩] := by
  refine ⟨?_, ?_, ?_, ?_, ?_, ?_, ?_, ?_⟩
  · intro line i lat lng h
    have hne : ¬ trimChars line.data = [] := by
      intro h0
      have hws := (trimChars_eq_nil_iff line.data).mp h0
      have hn := findFirst_none_of_ws tryUrlAt tryUrlAt_ws rfl line.data hws
      rw [hn] at h
      exact Option.noConfusion h
    simp only [parseLine]
    rw [if_neg hne, h]
  · intro line i lat lng hurl hbare
    have hne : ¬ trimChars line.data = [] := by
      intro h0
      have hws := (trimChars_eq_nil_iff line.data).mp h0
      have hn := findFirst_none_of_ws tryBareAt tryBareAt_ws rfl line.data hws
      rw [hn] at hbare
      exact Option.noConfusion hbare
    simp only [parseLine]
    rw [if_neg hne, hurl, hbare]
  · intro line h
    have ht : trimChars line.data = [] := (trimChars_eq_nil_iff line.data).mpr h
    simp only [parseLine]
    rw [if_pos ht]
  · intro line h1 h2
    by_cases ht : trimChars line.data = []
    · simp only [parseLine]
      rw [if_pos ht]
    · simp only [parseLine]
      rw [if_neg ht, h1, h2]
  · intro t1 t2
    unfold parseLines
    exact List.filterMap_append t1 t2 parseLine
  · rw [show parseText ("https://maps.google.com/@13.1,100.2,15z") =
      [⟨(13 : ℚ) + (1 : ℚ) / (10 : ℚ) ^ (1 : ℕ),
        (100 : ℚ) + (2 : ℚ) / (10 : ℚ) ^ (1 : ℕ), Option.none⟩] from rfl]
    norm_num [RawPoint.mk.injEq]
  · rw [show parseText ("My Site, 18.787, 98.993") =
      [⟨(18 : ℚ) + (787 : ℚ) / (10 : ℚ) ^ (3 : ℕ),
        (98 : ℚ) + (993 : ℚ) / (10 : ℚ) ^ (3 : ℕ), some "My Site"⟩] from rfl]
    norm_num [RawPoint.mk.injEq]
  · rw [show parseText ("13.756, 100.501") =
      [⟨(13 : ℚ) + (756 : ℚ) / (10 : ℚ) ^ (3 : ℕ),
        (100 : ℚ) + (501 : ℚ) / (10 : ℚ) ^ (3 : ℕ), Option.none⟩] from rfl]
    norm_num [RawPoint.mk.injEq]

/-- Witness for C3 at a concrete input: a named bare-coordinate line. -/
theorem claim3_witness :
    parseLine ("Office, 18.787, 98.993") =
      some ⟨18.787, 98.993, some "Office"⟩ := by
  have h := claim3_parse.2.1 ("Office, 18.787, 98.993") 8
    ((18 : ℚ) + (787 : ℚ) / (10 : ℚ) ^ (3 : ℕ))
    ((98 : ℚ) + (993 : ℚ) / (10 : ℚ) ^ (3 : ℕ))
    (by decide) rfl
  rw [h]
  have hb : beforeName ("Office, 18.787, 98.993").data 8 = some "Office" := by
    decide
  rw [hb]
  norm_num [RawPoint.mk.injEq]
